import Mathlib

/-!
# Shallow embedding of the progressista server and client

This file embeds, in Lean, the parts of `progressista/server.py` and
`progressista/client.py` that the verified claims are about:

* the task registry and the merge performed by the `POST /progress` handler
  (`progress` in `server.py`);
* token extraction and enforcement (`require_token`, the `_token` pop);
* the sweeper (`cleanup_loop`): close-retention, max-age and staleness
  policies, and the control flow of the loop itself;
* snapshot persistence (`persist_state`) and restore (`load_persisted_tasks`);
* the client delivery channel (`RemoteTqdmMixin._emit`, `_worker`, `close`).

Python floats used for times and counters carry no arithmetic here beyond
subtraction and comparison, so they are modelled as `Int`.  JSON metadata
maps are modelled as association lists with `String` payloads.  A Python
`dict` field that may be absent is an `Option`.
-/

/-- Free-form metadata map (`Dict[str, Any]` in the source), modelled as an
association list from keys to opaque string payloads. -/
abbrev Meta : Type := List (String × String)

/-- Association-list lookup, the model of Python `dict.get` /
`dict.__getitem__` for string-keyed maps. -/
def alookup {α : Type} (key : String) : List (String × α) → Option α
  | [] => none
  | (k, v) :: rest => if k = key then some v else alookup key rest

/-- Association-list update, the model of Python `dict.__setitem__`:
replace the value in place when the key exists, append otherwise. -/
def aset {α : Type} : List (String × α) → String → α → List (String × α)
  | [], key, v => [(key, v)]
  | (k, w) :: rest, key, v =>
      if k = key then (key, v) :: rest else (k, w) :: aset rest key v

/-- Membership test on a list of keys, the model of Python `in` on dict
keys / `list.__contains__` on id lists. -/
def keyMem (key : String) : List String → Bool
  | [] => false
  | k :: rest => if k = key then true else keyMem key rest

/-- Server-resident state for one task (the per-id dict stored in
`app.state.tasks`).  Keys that the server may leave absent are `Option`;
`recovered` models presence of the `"recovered"` key. -/
structure TaskState where
  task_id : String
  desc : Option String := none
  total : Option Int := none
  n : Option Int := none
  unit : Option String := none
  meta : Option Meta := none
  status : Option String := none
  created_at : Option Int := none
  updated_at : Option Int := none
  timestamp : Option Int := none
  done_at : Option Int := none
  stale_at : Option Int := none
  recovered : Bool := false
  recovered_at : Option Int := none
  deriving DecidableEq, Repr

/-- The registry `app.state.tasks : Dict[str, Dict[str, Any]]`, an
insertion-ordered map from task id to state. -/
abbrev Registry : Type := List (String × TaskState)

/-- Wire payload of `POST /progress` (`ProgressEvent` in `server.py`):
only `task_id` is required. -/
structure ProgressEvent where
  task_id : String
  desc : Option String := none
  total : Option Int := none
  n : Option Int := none
  unit : Option String := none
  status : Option String := none
  timestamp : Option Int := none
  meta : Option Meta := none
  deriving DecidableEq, Repr

/-- `if event.f is not None: task[f] = event.f` — a present event field
overwrites, an absent one leaves the stored value untouched. -/
def overwrite {α : Type} (new old : Option α) : Option α :=
  match new with
  | some v => some v
  | none => old

/-- The fresh task template used by the `progress` handler when a task id
has never been seen:
`{"task_id": id, "created_at": now, "n": 0, "total": None, "status": "start"}`. -/
def defaultTask (id : String) (now : Int) : TaskState :=
  { task_id := id, created_at := some now, n := some 0, total := none,
    status := some "start" }

/-- Body of the `progress` handler after fetch-or-create: field-level
partial update, then the unconditional writes
`task["status"] = event_dict["status"]` (defaulted to `"update"`),
`task["updated_at"] = now`, `task["timestamp"] = event_dict["timestamp"]`
(defaulted to `now`), `done_at` setdefault on close, and the pops of
`recovered` / `recovered_at`. -/
def applyEvent (t : TaskState) (e : ProgressEvent) (now : Int) : TaskState :=
  let st := e.status.getD "update"
  let ts := e.timestamp.getD now
  let t1 : TaskState :=
    { t with
      desc := overwrite e.desc t.desc
      total := overwrite e.total t.total
      n := overwrite e.n t.n
      unit := overwrite e.unit t.unit
      meta := overwrite e.meta t.meta
      status := some st
      updated_at := some now
      timestamp := some ts }
  let t2 : TaskState :=
    if st = "close" then { t1 with done_at := some (t1.done_at.getD now) } else t1
  { t2 with recovered := false, recovered_at := none }

/-- One merge of an event into the registry, as performed by the
`progress` handler under the state lock. -/
def mergeEvent (tasks : Registry) (e : ProgressEvent) (now : Int) : Registry :=
  let base := (alookup e.task_id tasks).getD (defaultTask e.task_id now)
  aset tasks e.task_id (applyEvent base e now)

/-- A sequence of merges: each element pairs the received event with the
server-side `now` of its merge. -/
def mergeAll (tasks : Registry) (es : List (ProgressEvent × Int)) : Registry :=
  es.foldl (fun r p => mergeEvent r p.1 p.2) tasks

-- ### Association-list lemmas

theorem alookup_aset_same {α : Type} (l : List (String × α)) (key : String) (v : α) :
    alookup key (aset l key v) = some v := by
  induction l with
  | nil => simp [aset, alookup]
  | cons p rest ih =>
    obtain ⟨k, w⟩ := p
    by_cases hk : k = key
    · simp [aset, hk, alookup]
    · simp [aset, hk, alookup, ih]

theorem alookup_aset_other {α : Type} (l : List (String × α)) (key key' : String) (v : α)
    (h : key ≠ key') : alookup key (aset l key' v) = alookup key l := by
  induction l with
  | nil => simp [aset, alookup, Ne.symm h]
  | cons p rest ih =>
    obtain ⟨k, w⟩ := p
    by_cases hk : k = key'
    · subst hk
      simp [aset, alookup, Ne.symm h]
    · simp [aset, hk, alookup, ih]

theorem mem_aset {α : Type} (l : List (String × α)) (key : String) (v : α)
    (p : String × α) (h : p ∈ aset l key v) : p = (key, v) ∨ p ∈ l := by
  induction l with
  | nil => simpa [aset] using h
  | cons q rest ih =>
    obtain ⟨k, w⟩ := q
    by_cases hk : k = key
    · simp only [aset, hk, if_pos rfl] at h
      rcases List.mem_cons.mp h with h1 | h2
      · exact Or.inl h1
      · exact Or.inr (List.mem_cons_of_mem _ h2)
    · simp only [aset, if_neg hk] at h
      rcases List.mem_cons.mp h with h1 | h2
      · exact Or.inr (h1 ▸ List.mem_cons_self _ _)
      · rcases ih h2 with h3 | h4
        · exact Or.inl h3
        · exact Or.inr (List.mem_cons_of_mem _ h4)

theorem getLast?_append_singleton {α : Type} (l : List α) (a : α) :
    (l ++ [a]).getLast? = some a := by
  induction l with
  | nil => rfl
  | cons b rest ih =>
    cases rest with
    | nil => rfl
    | cons c rest' =>
      rw [show (b :: (c :: rest')) ++ [a] = b :: c :: (rest' ++ [a]) from rfl,
        List.getLast?_cons_cons]
      exact ih

-- ### Projections of one merge

theorem applyEvent_desc (t : TaskState) (e : ProgressEvent) (now : Int) :
    (applyEvent t e now).desc = overwrite e.desc t.desc := by
  simp only [applyEvent]
  split <;> rfl

theorem applyEvent_total (t : TaskState) (e : ProgressEvent) (now : Int) :
    (applyEvent t e now).total = overwrite e.total t.total := by
  simp only [applyEvent]
  split <;> rfl

theorem applyEvent_n (t : TaskState) (e : ProgressEvent) (now : Int) :
    (applyEvent t e now).n = overwrite e.n t.n := by
  simp only [applyEvent]
  split <;> rfl

theorem applyEvent_unit (t : TaskState) (e : ProgressEvent) (now : Int) :
    (applyEvent t e now).unit = overwrite e.unit t.unit := by
  simp only [applyEvent]
  split <;> rfl

theorem applyEvent_meta (t : TaskState) (e : ProgressEvent) (now : Int) :
    (applyEvent t e now).meta = overwrite e.meta t.meta := by
  simp only [applyEvent]
  split <;> rfl

theorem applyEvent_status (t : TaskState) (e : ProgressEvent) (now : Int) :
    (applyEvent t e now).status = some (e.status.getD "update") := by
  simp only [applyEvent]
  split <;> rfl

theorem applyEvent_updated_at (t : TaskState) (e : ProgressEvent) (now : Int) :
    (applyEvent t e now).updated_at = some now := by
  simp only [applyEvent]
  split <;> rfl

theorem applyEvent_created_at (t : TaskState) (e : ProgressEvent) (now : Int) :
    (applyEvent t e now).created_at = t.created_at := by
  simp only [applyEvent]
  split <;> rfl

-- ### C1: last-write-wins characterization of a merge sequence

/-- The merges of a sequence that target a given task id
(`filter` keeps order). -/
def eventsFor (id : String) (es : List (ProgressEvent × Int)) :
    List (ProgressEvent × Int) :=
  es.filter (fun p => p.1.task_id == id)

/-- The last value a sequence of merges set for one event field
(`none` when no event of the sequence carried the field). -/
def lastSet {α : Type} (f : ProgressEvent → Option α)
    (es : List (ProgressEvent × Int)) : Option α :=
  (es.filterMap (fun p => f p.1)).getLast?

theorem mergeAll_append (tasks : Registry) (es : List (ProgressEvent × Int))
    (p : ProgressEvent × Int) :
    mergeAll tasks (es ++ [p]) = mergeEvent (mergeAll tasks es) p.1 p.2 := by
  simp [mergeAll, List.foldl_append]

theorem eventsFor_append (id : String) (es : List (ProgressEvent × Int))
    (p : ProgressEvent × Int) :
    eventsFor id (es ++ [p]) =
      eventsFor id es ++ (if p.1.task_id == id then [p] else []) := by
  unfold eventsFor
  rw [List.filter_append]
  congr 1
  cases hp : (p.1.task_id == id) <;> simp [List.filter_cons, hp]

theorem lastSet_singleton {α : Type} (f : ProgressEvent → Option α)
    (p : ProgressEvent × Int) : lastSet f [p] = f p.1 := by
  unfold lastSet
  cases hf : f p.1 <;> simp [List.filterMap, hf]

theorem overwrite_none {α : Type} (x : Option α) : overwrite x none = x := by
  cases x <;> rfl

theorem alookup_mergeAll_of_no_events (es : List (ProgressEvent × Int)) (id : String)
    (h : eventsFor id es = []) : alookup id (mergeAll [] es) = none := by
  induction es using List.reverseRecOn with
  | nil => rfl
  | append_singleton es p ih =>
    rw [eventsFor_append] at h
    by_cases hp : p.1.task_id == id
    · simp [hp] at h
    · rw [if_neg hp, List.append_nil] at h
      rw [mergeAll_append, mergeEvent, alookup_aset_other _ _ _ _
        (fun hq => by simp [hq] at hp)]
      exact ih h

/-- Field-level characterization of the state stored for `id` after a
sequence of merges into the empty registry: each of the five
partial-update fields holds the last value any event set for it (its
creation default when never set), and `updated_at` is the time of the
most recent merge for that id. -/
def lastWriteState (id : String) (es : List (ProgressEvent × Int))
    (t : TaskState) : Prop :=
  t.desc = lastSet ProgressEvent.desc (eventsFor id es) ∧
  t.total = lastSet ProgressEvent.total (eventsFor id es) ∧
  t.n = some ((lastSet ProgressEvent.n (eventsFor id es)).getD 0) ∧
  t.unit = lastSet (fun e => e.unit) (eventsFor id es) ∧
  t.meta = lastSet ProgressEvent.meta (eventsFor id es) ∧
  t.updated_at = (eventsFor id es).getLast?.map Prod.snd

theorem lastSet_append_event {α : Type} (f : ProgressEvent → Option α)
    (es : List (ProgressEvent × Int)) (p : ProgressEvent × Int) :
    lastSet f (es ++ [p]) = overwrite (f p.1) (lastSet f es) := by
  unfold lastSet
  rw [List.filterMap_append]
  cases hf : f p.1 with
  | none => simp [List.filterMap, hf, overwrite]
  | some v => simp [List.filterMap, hf, overwrite, getLast?_append_singleton]

theorem mergeAll_lastWrite_char (es : List (ProgressEvent × Int)) (id : String)
    (hne : eventsFor id es ≠ []) :
    ∃ t : TaskState, alookup id (mergeAll [] es) = some t ∧
      lastWriteState id es t := by
  induction es using List.reverseRecOn with
  | nil => simp [eventsFor] at hne
  | append_singleton es p ih =>
    rw [mergeAll_append, mergeEvent]
    by_cases hp : p.1.task_id == id
    · have hid : p.1.task_id = id := by simpa using hp
      by_cases hprev : eventsFor id es = []
      · have hnone := alookup_mergeAll_of_no_events es id hprev
        refine ⟨applyEvent (defaultTask p.1.task_id p.2) p.1 p.2, ?_, ?_⟩
        · rw [hid, hnone]
          exact alookup_aset_same _ _ _
        · unfold lastWriteState
          rw [eventsFor_append, hprev, if_pos hp, List.nil_append]
          refine ⟨?_, ?_, ?_, ?_, ?_, ?_⟩
          · rw [applyEvent_desc, lastSet_singleton]
            exact overwrite_none _
          · rw [applyEvent_total, lastSet_singleton]
            exact overwrite_none _
          · rw [applyEvent_n, lastSet_singleton]
            cases hx : p.1.n <;> simp [hx, overwrite, defaultTask]
          · rw [applyEvent_unit, lastSet_singleton]
            exact overwrite_none _
          · rw [applyEvent_meta, lastSet_singleton]
            exact overwrite_none _
          · rw [applyEvent_updated_at]
            rfl
      · obtain ⟨t, hlook, hchar⟩ := ih hprev
        refine ⟨applyEvent t p.1 p.2, ?_, ?_⟩
        · rw [hid, hlook]
          exact alookup_aset_same _ _ _
        · obtain ⟨h1, h2, h3, h4, h5, h6⟩ := hchar
          unfold lastWriteState
          rw [eventsFor_append, if_pos hp]
          refine ⟨?_, ?_, ?_, ?_, ?_, ?_⟩
          · rw [lastSet_append_event, applyEvent_desc, h1]
          · rw [lastSet_append_event, applyEvent_total, h2]
          · rw [lastSet_append_event, applyEvent_n]
            cases hx : p.1.n <;> simp [hx, overwrite, h3]
          · rw [lastSet_append_event, applyEvent_unit, h4]
          · rw [lastSet_append_event, applyEvent_meta, h5]
          · rw [getLast?_append_singleton, applyEvent_updated_at]
            rfl
    · have hid : p.1.task_id ≠ id := fun hq => by simp [hq] at hp
      rw [alookup_aset_other _ _ _ _ (Ne.symm hid)]
      have hsame : eventsFor id (es ++ [p]) = eventsFor id es := by
        rw [eventsFor_append, if_neg hp, List.append_nil]
      rw [eventsFor_append, if_neg hp, List.append_nil] at hne
      obtain ⟨t, hlook, hchar⟩ := ih hne
      refine ⟨t, hlook, ?_⟩
      unfold lastWriteState at hchar ⊢
      rw [hsame]
      exact hchar

-- ### Token extraction and enforcement

/-- `require_token(*candidates)`: with no configured tokens every request
passes; otherwise some candidate must be truthy (non-empty) and one of
the configured tokens, else HTTP 401 is raised. -/
def tokenAccepted (cfg : List String) (candidate : Option String) : Bool :=
  match candidate with
  | some s => if s = "" then false else keyMem s cfg
  | none => false

def requireTokenOk (cfg : List String) (candidates : List (Option String)) : Bool :=
  if cfg = [] then true
  else candidates.any (tokenAccepted cfg)

/-- The `_token` pop at the top of the `progress` handler:
`if event.meta and "_token" in event.meta: meta_token = event.meta.pop("_token")`.
Returns the popped candidate and the event with `_token` removed from its
metadata (the event is left untouched when `meta` is absent, empty, or has
no `_token` key). -/
def popMetaToken (e : ProgressEvent) : Option String × ProgressEvent :=
  match e.meta with
  | none => (none, e)
  | some m =>
      if m.isEmpty then (none, e)
      else
        match alookup "_token" m with
        | some v =>
            (some v, { e with meta := some (m.filter (fun p => !(p.1 == "_token"))) })
        | none => (none, e)

/-- The `POST /progress` handler: pop `_token` from the body metadata,
enforce tokens over the body/query/header candidates, then merge under
the state lock.  `Except.error ()` is the HTTP 401 rejection. -/
def progressPost (cfg : List String) (tasks : Registry) (e : ProgressEvent)
    (queryToken headerToken : Option String) (now : Int) : Except Unit Registry :=
  let mp := popMetaToken e
  if requireTokenOk cfg [mp.1, queryToken, headerToken] then
    Except.ok (mergeEvent tasks mp.2 now)
  else
    Except.error ()

/-- Registry state after the request: a rejected request leaves the
registry exactly as it was. -/
def applyPost (cfg : List String) (tasks : Registry) (e : ProgressEvent)
    (queryToken headerToken : Option String) (now : Int) : Registry :=
  match progressPost cfg tasks e queryToken headerToken now with
  | Except.ok r => r
  | Except.error _ => tasks

/-- Presence of a `_token` key in a stored task's metadata. -/
def metaHasToken (t : TaskState) : Bool :=
  match t.meta with
  | some m => (alookup "_token" m).isSome
  | none => false

theorem alookup_filter_self {α : Type} (key : String) (m : List (String × α)) :
    alookup key (m.filter (fun p => !(p.1 == key))) = none := by
  induction m with
  | nil => rfl
  | cons p rest ih =>
    obtain ⟨k, v⟩ := p
    by_cases hk : k = key
    · simp [List.filter_cons, hk, ih]
    · simp [List.filter_cons, hk, alookup, ih]

theorem mem_of_alookup_eq_some {α : Type} {l : List (String × α)} {key : String} {v : α}
    (h : alookup key l = some v) : (key, v) ∈ l := by
  induction l with
  | nil => simp [alookup] at h
  | cons p rest ih =>
    obtain ⟨k, w⟩ := p
    by_cases hk : k = key
    · subst hk
      simp [alookup] at h
      exact h ▸ List.mem_cons_self _ _
    · simp [alookup, hk] at h
      exact List.mem_cons_of_mem _ (ih h)

-- ### Claim C1

/-- **C1.** Each field present in a `POST /progress` event among
`desc`, `total`, `n`, `unit`, `meta` overwrites the stored TaskState
field while absent fields are left untouched, and `updated_at` is set to
the time of the merge; hence for any sequence of merges into an empty
registry the state for a given `task_id` holds, per field independently,
the last value set for that field (its creation default when never set),
and `updated_at` is the time of the most recent merge for that id. -/
theorem progress_merge_lastWriteWins :
    (∀ (t : TaskState) (e : ProgressEvent) (now : Int),
      (applyEvent t e now).desc = overwrite e.desc t.desc ∧
      (applyEvent t e now).total = overwrite e.total t.total ∧
      (applyEvent t e now).n = overwrite e.n t.n ∧
      (applyEvent t e now).unit = overwrite e.unit t.unit ∧
      (applyEvent t e now).meta = overwrite e.meta t.meta ∧
      (applyEvent t e now).updated_at = some now) ∧
    (∀ (es : List (ProgressEvent × Int)) (id : String), eventsFor id es ≠ [] →
      ∃ t : TaskState, alookup id (mergeAll [] es) = some t ∧
        lastWriteState id es t) := by
  constructor
  · intro t e now
    exact ⟨applyEvent_desc t e now, applyEvent_total t e now, applyEvent_n t e now,
      applyEvent_unit t e now, applyEvent_meta t e now, applyEvent_updated_at t e now⟩
  · intro es id hne
    exact mergeAll_lastWrite_char es id hne

theorem progress_merge_lastWriteWins_witness :
    ∃ t : TaskState,
      alookup "t"
        (mergeAll []
          [(({ task_id := "t", desc := some "load", n := some 1 } : ProgressEvent), 10),
           (({ task_id := "t", n := some 5 } : ProgressEvent), 20)]) = some t ∧
      lastWriteState "t"
        [(({ task_id := "t", desc := some "load", n := some 1 } : ProgressEvent), 10),
         (({ task_id := "t", n := some 5 } : ProgressEvent), 20)] t :=
  progress_merge_lastWriteWins.2
    [(({ task_id := "t", desc := some "load", n := some 1 } : ProgressEvent), 10),
     (({ task_id := "t", n := some 5 } : ProgressEvent), 20)]
    "t" (by decide)

-- ### Claim C3

/-- **C3 (counterexample).** The first event ever seen for a task id
carrying no status field does NOT leave status `"start"`: the fresh-task
template's `"start"` is unconditionally overwritten by
`event_dict["status"]`, which defaults to `"update"`. -/
theorem firstEvent_noStatus_is_update_not_start :
    (alookup "t" (mergeEvent [] ({ task_id := "t" } : ProgressEvent) 5)).map
        TaskState.status = some (some "update") ∧
    (alookup "t" (mergeEvent [] ({ task_id := "t" } : ProgressEvent) 5)).map
        TaskState.status ≠ some (some "start") := by
  decide

/-- **C3 (amended).** When the first event ever seen for a `task_id`
carries no status field, the TaskState created for it has status
`"update"` after the merge: the `"start"` default of the fresh-task
template is immediately overwritten by the server-side per-event default
`"update"`. -/
theorem firstEvent_noStatus_defaults_update (tasks : Registry) (e : ProgressEvent)
    (now : Int) (hfirst : alookup e.task_id tasks = none) (hst : e.status = none) :
    ∃ t : TaskState, alookup e.task_id (mergeEvent tasks e now) = some t ∧
      t.status = some "update" := by
  refine ⟨applyEvent (defaultTask e.task_id now) e now, ?_, ?_⟩
  · unfold mergeEvent
    rw [hfirst]
    exact alookup_aset_same _ _ _
  · rw [applyEvent_status, hst]
    rfl

theorem firstEvent_noStatus_defaults_update_witness :
    ∃ t : TaskState,
      alookup "x" (mergeEvent [] ({ task_id := "x" } : ProgressEvent) 3) = some t ∧
      t.status = some "update" :=
  firstEvent_noStatus_defaults_update [] ({ task_id := "x" } : ProgressEvent) 3
    (by decide) (by decide)

-- ### Claim C9

/-- **C9.** With API tokens configured, a `POST /progress` request whose
body-meta, query and bearer-header candidates are all invalid is rejected
(HTTP 401) and leaves the registry unchanged; a request carrying one
accepted token in any of the three places succeeds and applies the
merge of the `_token`-stripped event. -/
theorem progressPost_tokenEnforcement (cfg : List String) (tasks : Registry)
    (e : ProgressEvent) (qt ht : Option String) (now : Int) :
    (cfg ≠ [] →
      tokenAccepted cfg (popMetaToken e).1 = false →
      tokenAccepted cfg qt = false →
      tokenAccepted cfg ht = false →
      progressPost cfg tasks e qt ht now = Except.error () ∧
      applyPost cfg tasks e qt ht now = tasks) ∧
    ((tokenAccepted cfg (popMetaToken e).1 = true ∨
      tokenAccepted cfg qt = true ∨ tokenAccepted cfg ht = true) →
      progressPost cfg tasks e qt ht now =
        Except.ok (mergeEvent tasks (popMetaToken e).2 now) ∧
      applyPost cfg tasks e qt ht now = mergeEvent tasks (popMetaToken e).2 now) := by
  have hfn : progressPost cfg tasks e qt ht now =
      if requireTokenOk cfg [(popMetaToken e).1, qt, ht] = true
      then Except.ok (mergeEvent tasks (popMetaToken e).2 now)
      else Except.error () := rfl
  constructor
  · intro hcfg h1 h2 h3
    have hfail : requireTokenOk cfg [(popMetaToken e).1, qt, ht] = false := by
      unfold requireTokenOk
      rw [if_neg hcfg]
      simp [h1, h2, h3]
    have hres : progressPost cfg tasks e qt ht now = Except.error () := by
      rw [hfn, hfail]
      rfl
    refine ⟨hres, ?_⟩
    unfold applyPost
    rw [hres]
  · intro hvalid
    have hok : requireTokenOk cfg [(popMetaToken e).1, qt, ht] = true := by
      unfold requireTokenOk
      by_cases hcfg : cfg = []
      · rw [if_pos hcfg]
      · rw [if_neg hcfg]
        rcases hvalid with h | h | h <;> simp [h]
    have hres : progressPost cfg tasks e qt ht now =
        Except.ok (mergeEvent tasks (popMetaToken e).2 now) := by
      rw [hfn, hok]
      rfl
    refine ⟨hres, ?_⟩
    unfold applyPost
    rw [hres]

theorem progressPost_tokenEnforcement_witness :
    (progressPost ["s3cret"] [("a", ({ task_id := "a" } : TaskState))]
        ({ task_id := "t" } : ProgressEvent) none (some "wrong") 7 =
      Except.error () ∧
     applyPost ["s3cret"] [("a", ({ task_id := "a" } : TaskState))]
        ({ task_id := "t" } : ProgressEvent) none (some "wrong") 7 =
      [("a", ({ task_id := "a" } : TaskState))]) ∧
    progressPost ["s3cret"] [("a", ({ task_id := "a" } : TaskState))]
        ({ task_id := "t" } : ProgressEvent) none (some "s3cret") 7 =
      Except.ok (mergeEvent [("a", ({ task_id := "a" } : TaskState))]
        (popMetaToken ({ task_id := "t" } : ProgressEvent)).2 7) :=
  ⟨(progressPost_tokenEnforcement ["s3cret"] [("a", ({ task_id := "a" } : TaskState))]
      ({ task_id := "t" } : ProgressEvent) none (some "wrong") 7).1
      (by decide) (by decide) (by decide) (by decide),
   ((progressPost_tokenEnforcement ["s3cret"] [("a", ({ task_id := "a" } : TaskState))]
      ({ task_id := "t" } : ProgressEvent) none (some "s3cret") 7).2
      (Or.inr (Or.inr (by decide)))).1⟩

-- ### Claim C10

/-- **C10.** `_token` is popped from the event metadata before
authentication and before the merge, for every token configuration
(including none): the merged event's metadata never contains `_token`,
and a registry whose stored metadata is `_token`-free stays `_token`-free
across any accepted `POST /progress`. -/
theorem popMetaToken_meta_clean (e : ProgressEvent) (m : Meta)
    (hm : (popMetaToken e).2.meta = some m) : alookup "_token" m = none := by
  unfold popMetaToken at hm
  cases he : e.meta with
  | none =>
    rw [he] at hm
    dsimp only at hm
    rw [he] at hm
    exact Option.noConfusion hm
  | some m0 =>
    rw [he] at hm
    dsimp only at hm
    by_cases hemp : m0.isEmpty
    · rw [if_pos hemp] at hm
      dsimp only at hm
      rw [he] at hm
      injection hm with hm'
      rw [← hm']
      cases m0 with
      | nil => rfl
      | cons q rest => exact absurd hemp (by simp)
    · rw [if_neg hemp] at hm
      cases hl : alookup "_token" m0 with
      | some v =>
        rw [hl] at hm
        dsimp only at hm
        injection hm with hm'
        rw [← hm']
        exact alookup_filter_self _ _
      | none =>
        rw [hl] at hm
        dsimp only at hm
        rw [he] at hm
        injection hm with hm'
        rw [← hm']
        exact hl

theorem progressPost_strips_token (cfg : List String) (tasks : Registry)
    (e : ProgressEvent) (qt ht : Option String) (now : Int) :
    (∀ m : Meta, (popMetaToken e).2.meta = some m → alookup "_token" m = none) ∧
    (∀ r : Registry, progressPost cfg tasks e qt ht now = Except.ok r →
      (∀ p ∈ tasks, metaHasToken p.2 = false) →
      ∀ p ∈ r, metaHasToken p.2 = false) := by
  refine ⟨popMetaToken_meta_clean e, ?_⟩
  intro r hr hinv p hp
  simp only [progressPost] at hr
  by_cases hok : requireTokenOk cfg [(popMetaToken e).1, qt, ht] = true
  · rw [if_pos hok] at hr
    injection hr with hr'
    rw [← hr'] at hp
    unfold mergeEvent at hp
    rcases mem_aset _ _ _ _ hp with heq | hmem
    · rw [heq]
      show metaHasToken (applyEvent _ _ _) = false
      unfold metaHasToken
      rw [applyEvent_meta]
      cases hem : (popMetaToken e).2.meta with
      | some m =>
        have := popMetaToken_meta_clean e m hem
        simp [overwrite, this]
      | none =>
        simp only [overwrite]
        cases hb : alookup (popMetaToken e).2.task_id tasks with
        | some t0 =>
          have h0 := hinv _ (mem_of_alookup_eq_some hb)
          unfold metaHasToken at h0
          exact h0
        | none => rfl
    · exact hinv p hmem
  · rw [if_neg hok] at hr
    exact Except.noConfusion hr

theorem progressPost_strips_token_witness :
    metaHasToken
      (applyEvent (defaultTask "t" 7)
        (popMetaToken
          ({ task_id := "t",
             meta := some [("_token", "x"), ("k", "v")] } : ProgressEvent)).2 7)
      = false := by
  have h :=
    (progressPost_strips_token [] []
      ({ task_id := "t", meta := some [("_token", "x"), ("k", "v")] } : ProgressEvent)
      none none 7).2
      (mergeEvent []
        (popMetaToken
          ({ task_id := "t",
             meta := some [("_token", "x"), ("k", "v")] } : ProgressEvent)).2 7)
      rfl (by intro p hp; exact absurd hp (List.not_mem_nil p))
  exact h ("t",
    applyEvent (defaultTask "t" 7)
      (popMetaToken
        ({ task_id := "t",
           meta := some [("_token", "x"), ("k", "v")] } : ProgressEvent)).2 7)
    (by decide)

-- ### Snapshot store: persist and restore

/-- `persist_state` serializes `{"tasks": snapshot, "version": ..,
"saved_at": ..}` and `load_persisted_tasks` reads `payload["tasks"]`
back, so the tasks mapping itself round-trips verbatim through the JSON
file; the file side of the round trip is therefore the identity on the
typed registry. -/
def persistedTasks (snapshot : Registry) : Registry := snapshot

/-- Per-entry restore performed by `load_persisted_tasks`: default
`created_at` to load time and `updated_at` to `created_at`; coerce a
missing or falsy status to `"recovered"`; keep `"close"` and `"stale"`,
rewrite every other status to `"recovered"`; and mark every entry
`recovered = True`, `recovered_at = now`.  (`task["task_id"] =
task.get("task_id", task_id)` is the identity here because the typed
state always carries its id.) -/
def restoreTask (raw : TaskState) (now : Int) : TaskState :=
  let created := raw.created_at.getD now
  let updated := raw.updated_at.getD created
  let s0 := raw.status.getD "recovered"
  let s1 := if s0 = "" then "recovered" else s0
  let st := if s1 = "close" then "close"
    else if s1 = "stale" then "stale" else "recovered"
  { raw with
    created_at := some created
    updated_at := some updated
    status := some st
    recovered := true
    recovered_at := some now }

/-- `load_persisted_tasks` over a well-formed persisted file: restore
every entry, keeping ids and order. -/
def loadPersisted (file : Registry) (now : Int) : Registry :=
  file.map (fun p => (p.1, restoreTask p.2 now))

theorem alookup_map_value {α β : Type} (g : α → β) (l : List (String × α))
    (id : String) :
    alookup id (l.map (fun p => (p.1, g p.2))) = (alookup id l).map g := by
  induction l with
  | nil => rfl
  | cons p rest ih =>
    obtain ⟨k, v⟩ := p
    by_cases hk : k = id <;> simp [alookup, hk, ih]

-- ### Claim C4

/-- **C4 (counterexample).** The snapshot round trip does NOT add
`recovered=true` only to entries that are not already close/stale, nor
does it keep all field values: an entry with status `"close"` also comes
back with `recovered = true`, and an entry with status `"update"` comes
back with its status rewritten to `"recovered"`. -/
theorem loadPersisted_roundTrip_not_claimed :
    (alookup "a"
        (loadPersisted
          (persistedTasks
            [("a", ({ task_id := "a", status := some "close", created_at := some 1,
                      updated_at := some 2 } : TaskState))]) 9)).map
        TaskState.recovered = some true ∧
    (alookup "b"
        (loadPersisted
          (persistedTasks
            [("b", ({ task_id := "b", status := some "update", created_at := some 1,
                      updated_at := some 2 } : TaskState))]) 9)).map
        TaskState.status = some (some "recovered") ∧
    (alookup "b"
        (loadPersisted
          (persistedTasks
            [("b", ({ task_id := "b", status := some "update", created_at := some 1,
                      updated_at := some 2 } : TaskState))]) 9)).map
        TaskState.status ≠ some (some "update") := by
  decide

/-- **C4 (amended).** Persisting a registry and reloading it yields the
same ordered set of task ids; for each entry the fields `task_id`,
`desc`, `total`, `n`, `unit`, `meta`, `timestamp`, `done_at` and
`stale_at` are preserved, `created_at`/`updated_at` are defaulted when
previously absent, `recovered = true` and `recovered_at = now` are set
on EVERY entry, a status of `"close"` or `"stale"` is kept, and every
other status (including absent or empty) is rewritten to
`"recovered"`. -/
theorem loadPersisted_roundTrip (r : Registry) (now : Int) (id : String)
    (t : TaskState) (ht : alookup id r = some t) :
    (loadPersisted (persistedTasks r) now).map Prod.fst = r.map Prod.fst ∧
    ∃ t' : TaskState,
      alookup id (loadPersisted (persistedTasks r) now) = some t' ∧
      t'.task_id = t.task_id ∧ t'.desc = t.desc ∧ t'.total = t.total ∧
      t'.n = t.n ∧ t'.unit = t.unit ∧ t'.meta = t.meta ∧
      t'.timestamp = t.timestamp ∧ t'.done_at = t.done_at ∧
      t'.stale_at = t.stale_at ∧
      t'.created_at = some (t.created_at.getD now) ∧
      t'.updated_at = some (t.updated_at.getD (t.created_at.getD now)) ∧
      t'.recovered = true ∧ t'.recovered_at = some now ∧
      (t.status = some "close" → t'.status = some "close") ∧
      (t.status = some "stale" → t'.status = some "stale") ∧
      (t.status = none → t'.status = some "recovered") ∧
      (∀ s : String, t.status = some s → s ≠ "close" → s ≠ "stale" →
        t'.status = some "recovered") := by
  constructor
  · unfold loadPersisted persistedTasks
    rw [List.map_map]
    rfl
  · refine ⟨restoreTask t now, ?_, rfl, rfl, rfl, rfl, rfl, rfl, rfl, rfl, rfl,
      rfl, rfl, rfl, rfl, ?_, ?_, ?_, ?_⟩
    · unfold loadPersisted persistedTasks
      rw [alookup_map_value (fun x => restoreTask x now) r id, ht]
      rfl
    · intro hs
      simp [restoreTask, hs]
    · intro hs
      simp [restoreTask, hs]
    · intro hs
      simp [restoreTask, hs]
    · intro s hs hc hst
      by_cases hemp : s = ""
      · simp [restoreTask, hs, hemp]
      · simp [restoreTask, hs, hemp, hc, hst]

theorem loadPersisted_roundTrip_witness :
    (loadPersisted
        (persistedTasks
          [("a", ({ task_id := "a", status := some "close", created_at := some 1,
                    updated_at := some 2 } : TaskState))]) 9).map Prod.fst =
      [("a", ({ task_id := "a", status := some "close", created_at := some 1,
                updated_at := some 2 } : TaskState))].map Prod.fst ∧
    ∃ t' : TaskState,
      alookup "a"
        (loadPersisted
          (persistedTasks
            [("a", ({ task_id := "a", status := some "close", created_at := some 1,
                      updated_at := some 2 } : TaskState))]) 9) = some t' ∧
      t'.task_id = "a" ∧ t'.desc = none ∧ t'.total = none ∧
      t'.n = none ∧ t'.unit = none ∧ t'.meta = none ∧
      t'.timestamp = none ∧ t'.done_at = none ∧
      t'.stale_at = none ∧
      t'.created_at = some ((some (1 : Int)).getD 9) ∧
      t'.updated_at = some ((some (2 : Int)).getD ((some (1 : Int)).getD 9)) ∧
      t'.recovered = true ∧ t'.recovered_at = some 9 ∧
      (some "close" = some "close" → t'.status = some "close") ∧
      (some "close" = some "stale" → t'.status = some "stale") ∧
      (some "close" = none → t'.status = some "recovered") ∧
      (∀ s : String, some "close" = some s → s ≠ "close" → s ≠ "stale" →
        t'.status = some "recovered") :=
  loadPersisted_roundTrip
    [("a", ({ task_id := "a", status := some "close", created_at := some 1,
              updated_at := some 2 } : TaskState))] 9 "a"
    ({ task_id := "a", status := some "close", created_at := some 1,
       updated_at := some 2 } : TaskState) (by decide)


-- ### The sweeper (`cleanup_loop` body)

/-- `data.get("updated_at", data.get("created_at", now))`: the reference
time the sweep policies age a task against. -/
def lastTouch (d : TaskState) (now : Int) : Int :=
  d.updated_at.getD (d.created_at.getD now)

/-- Close-retention predicate of one sweep:
`status == "close" and retention_seconds > 0 and now - updated_at > retention_seconds`. -/
def isCloseExpired (retention now : Int) (d : TaskState) : Bool :=
  decide (d.status = some "close") && decide (0 < retention) &&
    decide (retention < now - lastTouch d now)

/-- Max-age predicate of one sweep: `now - updated_at > max_task_age`. -/
def isOverMaxAge (maxAge now : Int) (d : TaskState) : Bool :=
  decide (maxAge < now - lastTouch d now)

/-- Stale-marking of one task during a sweep: a task not already
`close`/`stale` whose age exceeds `stale_seconds` gets
`status = "stale"` and `stale_at` setdefault-ed to `now`. -/
def staleMarkCond (staleSecs now : Int) (d : TaskState) : TaskState :=
  if d.status ≠ some "close" ∧ d.status ≠ some "stale" ∧
      staleSecs < now - lastTouch d now then
    { d with status := some "stale", stale_at := some (d.stale_at.getD now) }
  else d

/-- The ids one sweep removes: the close-retention list `stale_ids`
followed by the max-age additions to `removed_ids` (collected only when
`max_task_age > 0`). -/
def removedIdsOf (retention maxAge now : Int) (tasks : Registry) : List String :=
  (tasks.filter (fun p => isCloseExpired retention now p.2)).map Prod.fst ++
    (if 0 < maxAge then
      (tasks.filter (fun p => isOverMaxAge maxAge now p.2)).map Prod.fst
     else [])

/-- The registry after the stale-marking pass (performed only when
`stale_seconds > 0`). -/
def staleMarkedOf (staleSecs now : Int) (tasks : Registry) : Registry :=
  if 0 < staleSecs then
    tasks.map (fun p => (p.1, staleMarkCond staleSecs now p.2))
  else tasks

/-- One sweep cycle body of `cleanup_loop` under the state lock, in the
source's order: collect close-retention ids, append max-age ids, mark
staleness, then pop every collected id. -/
def sweep (retention maxAge staleSecs now : Int) (tasks : Registry) : Registry :=
  (staleMarkedOf staleSecs now tasks).filter
    (fun p => !(keyMem p.1 (removedIdsOf retention maxAge now tasks)))

/-- A task is removed by a sweep when the close-retention or the max-age
policy selects it. -/
def sweepRemoves (retention maxAge now : Int) (d : TaskState) : Bool :=
  isCloseExpired retention now d ||
    (decide (0 < maxAge) && isOverMaxAge maxAge now d)

-- ### Sweep lookup characterization

theorem keyMem_iff (id : String) (l : List String) :
    keyMem id l = true ↔ id ∈ l := by
  induction l with
  | nil => simp [keyMem]
  | cons k rest ih =>
    by_cases hk : k = id
    · subst hk
      simp [keyMem]
    · rw [show keyMem id (k :: rest) = keyMem id rest from by simp [keyMem, hk],
        ih, List.mem_cons]
      constructor
      · exact Or.inr
      · rintro (h | h)
        · exact absurd h.symm hk
        · exact h

theorem alookup_eq_of_mem_nodup {α : Type} {l : List (String × α)} {id : String}
    {d : α} (hnd : (l.map Prod.fst).Nodup) (h : (id, d) ∈ l) :
    alookup id l = some d := by
  induction l with
  | nil => exact absurd h (List.not_mem_nil _)
  | cons p rest ih =>
    obtain ⟨k, v⟩ := p
    rw [List.map_cons, List.nodup_cons] at hnd
    rcases List.mem_cons.mp h with h1 | h2
    · injection h1 with h1a h1b
      simp [alookup, h1a.symm, h1b.symm]
    · have hk : k ≠ id := by
        intro hkid
        exact hnd.1 (hkid ▸ (List.mem_map.mpr ⟨(id, d), h2, rfl⟩))
      simp [alookup, hk, ih hnd.2 h2]

theorem mem_filtered_keys_iff {l : List (String × TaskState)} {id : String}
    {q : TaskState → Bool} (hnd : (l.map Prod.fst).Nodup) :
    id ∈ (l.filter (fun p => q p.2)).map Prod.fst ↔
      ∃ d, alookup id l = some d ∧ q d = true := by
  constructor
  · intro h
    rcases List.mem_map.mp h with ⟨p, hp, hfst⟩
    rcases List.mem_filter.mp hp with ⟨hmem, hq⟩
    obtain ⟨k, d⟩ := p
    cases hfst
    exact ⟨d, alookup_eq_of_mem_nodup hnd hmem, hq⟩
  · rintro ⟨d, hl, hq⟩
    exact List.mem_map.mpr ⟨(id, d),
      List.mem_filter.mpr ⟨mem_of_alookup_eq_some hl, hq⟩, rfl⟩

theorem keyMem_removedIdsOf_none (retention maxAge now : Int) (tasks : Registry)
    (id : String) (hnd : (tasks.map Prod.fst).Nodup)
    (hl : alookup id tasks = none) :
    keyMem id (removedIdsOf retention maxAge now tasks) = false := by
  rw [← Bool.not_eq_true, keyMem_iff]
  unfold removedIdsOf
  rw [List.mem_append]
  push_neg
  have hnotmem : ∀ q : TaskState → Bool,
      id ∉ (tasks.filter (fun p => q p.2)).map Prod.fst := by
    intro q hmem
    rcases (mem_filtered_keys_iff hnd).mp hmem with ⟨d, hd, _⟩
    rw [hl] at hd
    exact Option.noConfusion hd
  refine ⟨hnotmem _, ?_⟩
  by_cases hm : 0 < maxAge
  · rw [if_pos hm]
    exact hnotmem _
  · rw [if_neg hm]
    exact List.not_mem_nil _

theorem keyMem_removedIdsOf_some (retention maxAge now : Int) (tasks : Registry)
    (id : String) (d : TaskState) (hnd : (tasks.map Prod.fst).Nodup)
    (hl : alookup id tasks = some d) :
    keyMem id (removedIdsOf retention maxAge now tasks) =
      sweepRemoves retention maxAge now d := by
  cases hrm : sweepRemoves retention maxAge now d with
  | true =>
    rw [keyMem_iff]
    unfold removedIdsOf
    rw [List.mem_append]
    unfold sweepRemoves at hrm
    rcases Bool.or_eq_true_iff.mp hrm with hc | hma
    · exact Or.inl ((mem_filtered_keys_iff hnd).mpr ⟨d, hl, hc⟩)
    · rcases Bool.and_eq_true_iff.mp hma with ⟨hm0, hov⟩
      refine Or.inr ?_
      rw [if_pos (of_decide_eq_true hm0)]
      exact (mem_filtered_keys_iff hnd).mpr ⟨d, hl, hov⟩
  | false =>
    rw [← Bool.not_eq_true, keyMem_iff]
    unfold removedIdsOf
    rw [List.mem_append]
    unfold sweepRemoves at hrm
    rcases Bool.or_eq_false_iff.mp hrm with ⟨hc, hma⟩
    push_neg
    constructor
    · intro hmem
      rcases (mem_filtered_keys_iff hnd).mp hmem with ⟨d', hd', hq⟩
      rw [hl] at hd'
      injection hd' with hd'
      rw [← hd'] at hq
      rw [hq] at hc
      exact Bool.noConfusion hc
    · by_cases hm : 0 < maxAge
      · rw [if_pos hm]
        intro hmem
        rcases (mem_filtered_keys_iff hnd).mp hmem with ⟨d', hd', hq⟩
        rw [hl] at hd'
        injection hd' with hd'
        rw [← hd'] at hq
        rw [Bool.and_eq_false_iff] at hma
        rcases hma with hma | hma
        · exact absurd (decide_eq_true hm) (by rw [hma]; exact Bool.noConfusion)
        · rw [hq] at hma
          exact Bool.noConfusion hma
      · rw [if_neg hm]
        exact List.not_mem_nil _

theorem alookup_staleMarkedOf (staleSecs now : Int) (tasks : Registry)
    (id : String) :
    alookup id (staleMarkedOf staleSecs now tasks) =
      (alookup id tasks).map
        (fun d => if 0 < staleSecs then staleMarkCond staleSecs now d else d) := by
  unfold staleMarkedOf
  by_cases hs : 0 < staleSecs
  · rw [if_pos hs,
      alookup_map_value (fun d => staleMarkCond staleSecs now d) tasks id]
    cases alookup id tasks <;> simp [hs]
  · rw [if_neg hs]
    cases alookup id tasks <;> simp [hs]

theorem alookup_filter_key {α : Type} (l : List (String × α)) (id : String)
    (keep : String → Bool) :
    alookup id (l.filter (fun p => keep p.1)) =
      if keep id = true then alookup id l else none := by
  induction l with
  | nil => simp [alookup]
  | cons p rest ih =>
    obtain ⟨k, v⟩ := p
    by_cases hk : k = id
    · subst hk
      by_cases hkeep : keep k = true
      · simp [List.filter_cons, hkeep, alookup, ih]
      · simp only [Bool.not_eq_true] at hkeep
        simp [List.filter_cons, hkeep, alookup, ih]
    · by_cases hkeep : keep k = true
      · simp [List.filter_cons, hkeep, alookup, hk, ih]
      · simp only [Bool.not_eq_true] at hkeep
        simp [List.filter_cons, hkeep, alookup, hk, ih]

theorem alookup_sweep (retention maxAge staleSecs now : Int) (tasks : Registry)
    (id : String) (hnd : (tasks.map Prod.fst).Nodup) :
    alookup id (sweep retention maxAge staleSecs now tasks) =
      match alookup id tasks with
      | none => none
      | some d =>
          if sweepRemoves retention maxAge now d = true then none
          else some (if 0 < staleSecs then staleMarkCond staleSecs now d else d) := by
  unfold sweep
  rw [alookup_filter_key (staleMarkedOf staleSecs now tasks) id
    (fun k => !(keyMem k (removedIdsOf retention maxAge now tasks)))]
  cases hl : alookup id tasks with
  | none =>
    rw [keyMem_removedIdsOf_none retention maxAge now tasks id hnd hl]
    simp only [Bool.not_false, if_pos rfl]
    rw [alookup_staleMarkedOf, hl]
    rfl
  | some d =>
    rw [keyMem_removedIdsOf_some retention maxAge now tasks id d hnd hl]
    show (if (!(sweepRemoves retention maxAge now d)) = true then
        alookup id (staleMarkedOf staleSecs now tasks) else none) =
      (if sweepRemoves retention maxAge now d = true then none
       else some (if 0 < staleSecs then staleMarkCond staleSecs now d else d))
    cases hrm : sweepRemoves retention maxAge now d with
    | true => rfl
    | false =>
      simp only [Bool.not_false, if_pos rfl]
      rw [alookup_staleMarkedOf, hl]
      rfl

theorem sweep_keys_nodup (retention maxAge staleSecs now : Int) (tasks : Registry)
    (hnd : (tasks.map Prod.fst).Nodup) :
    ((sweep retention maxAge staleSecs now tasks).map Prod.fst).Nodup := by
  unfold sweep
  have h1 : (staleMarkedOf staleSecs now tasks).map Prod.fst = tasks.map Prod.fst := by
    unfold staleMarkedOf
    by_cases hs : 0 < staleSecs
    · rw [if_pos hs, List.map_map]
      rfl
    · rw [if_neg hs]
  have hsub :
      (((staleMarkedOf staleSecs now tasks).filter
        (fun p => !(keyMem p.1 (removedIdsOf retention maxAge now tasks)))).map
          Prod.fst).Sublist
        ((staleMarkedOf staleSecs now tasks).map Prod.fst) :=
    (List.filter_sublist _).map Prod.fst
  rw [h1] at hsub
  exact List.Nodup.sublist hsub hnd

-- ### Claim C7

/-- **C7.** Close retention: a sweep removes every task whose status is
`"close"` and whose age `now - updated_at` strictly exceeds
`retention_seconds`, when `retention_seconds > 0` (the age hypothesis is
the strict inequality itself, covering the boundary age
`retention_seconds + 1` and every larger age alike); with
`retention_seconds = 0` the policy is skipped and (with the independent
max-age policy also disabled) the task is retained unchanged. -/
theorem sweep_closeRetention (retention maxAge staleSecs now : Int)
    (tasks : Registry) (id : String) (t : TaskState)
    (hnd : (tasks.map Prod.fst).Nodup)
    (ht : alookup id tasks = some t)
    (hstatus : t.status = some "close")
    (hage : retention < now - lastTouch t now) :
    (0 < retention → alookup id (sweep retention maxAge staleSecs now tasks) = none) ∧
    (retention = 0 → maxAge = 0 →
      alookup id (sweep retention maxAge staleSecs now tasks) = some t) := by
  constructor
  · intro hr
    rw [alookup_sweep _ _ _ _ _ _ hnd, ht]
    have hexp : isCloseExpired retention now t = true := by
      unfold isCloseExpired
      simp [hstatus, hr, hage]
    have hrm : sweepRemoves retention maxAge now t = true := by
      unfold sweepRemoves
      rw [hexp]
      rfl
    show (if sweepRemoves retention maxAge now t = true then none
      else some (if 0 < staleSecs then staleMarkCond staleSecs now t else t)) = none
    rw [hrm]
    rfl
  · intro hr0 hm0
    subst hr0
    subst hm0
    rw [alookup_sweep _ _ _ _ _ _ hnd, ht]
    have hrm : sweepRemoves 0 0 now t = false := by
      unfold sweepRemoves isCloseExpired isOverMaxAge
      simp
    have hsm : staleMarkCond staleSecs now t = t := by
      unfold staleMarkCond
      rw [if_neg]
      exact fun hc => hc.1 hstatus
    show (if sweepRemoves 0 0 now t = true then none
      else some (if 0 < staleSecs then staleMarkCond staleSecs now t else t)) = some t
    rw [hrm, hsm, if_neg (by simp)]
    simp

theorem sweep_closeRetention_witness :
    (0 < (5 : Int) →
      alookup "a"
        (sweep 5 0 0 100
          [("a", ({ task_id := "a", status := some "close",
                    updated_at := some 92 } : TaskState))]) = none) ∧
    ((5 : Int) = 0 → (0 : Int) = 0 →
      alookup "a"
        (sweep 5 0 0 100
          [("a", ({ task_id := "a", status := some "close",
                    updated_at := some 92 } : TaskState))]) =
        some ({ task_id := "a", status := some "close",
                updated_at := some 92 } : TaskState)) :=
  sweep_closeRetention 5 0 0 100
    [("a", ({ task_id := "a", status := some "close",
              updated_at := some 92 } : TaskState))] "a"
    ({ task_id := "a", status := some "close",
       updated_at := some 92 } : TaskState)
    (by decide) (by decide) (by decide) (by decide)

-- ### Claim C8

/-- **C8.** Staleness is idempotent: with `stale_seconds > 0` a sweep
transitions a task that is neither `"close"` nor `"stale"` and whose age
exceeds `stale_seconds` to status `"stale"` without removing it, setting
`stale_at` to the sweep time exactly once; a second sweep at any later
time leaves status and `stale_at` (and the whole entry) unchanged. -/
theorem sweep_staleness_idempotent (retention staleSecs now now2 : Int)
    (tasks : Registry) (id : String) (t : TaskState)
    (hnd : (tasks.map Prod.fst).Nodup)
    (ht : alookup id tasks = some t)
    (hs : 0 < staleSecs)
    (hnc : t.status ≠ some "close") (hns : t.status ≠ some "stale")
    (hst0 : t.stale_at = none)
    (hage : staleSecs < now - lastTouch t now) :
    alookup id (sweep retention 0 staleSecs now tasks) =
      some { t with status := some "stale", stale_at := some now } ∧
    alookup id (sweep retention 0 staleSecs now2
        (sweep retention 0 staleSecs now tasks)) =
      some { t with status := some "stale", stale_at := some now } := by
  have hrm : sweepRemoves retention 0 now t = false := by
    unfold sweepRemoves isCloseExpired isOverMaxAge
    simp [hnc]
  have hmarked : staleMarkCond staleSecs now t =
      { t with status := some "stale", stale_at := some now } := by
    unfold staleMarkCond
    rw [if_pos ⟨hnc, hns, hage⟩, hst0]
    rfl
  have part1 : alookup id (sweep retention 0 staleSecs now tasks) =
      some { t with status := some "stale", stale_at := some now } := by
    rw [alookup_sweep _ _ _ _ _ _ hnd, ht]
    show (if sweepRemoves retention 0 now t = true then none
      else some (if 0 < staleSecs then staleMarkCond staleSecs now t else t)) = _
    rw [hrm, if_neg (by simp), if_pos hs, hmarked]
  refine ⟨part1, ?_⟩
  have hnd2 := sweep_keys_nodup retention 0 staleSecs now tasks hnd
  rw [alookup_sweep _ _ _ _ _ _ hnd2, part1]
  have hrm2 : sweepRemoves retention 0 now2
      ({ t with status := some "stale", stale_at := some now }) = false := rfl
  have hsm2 : staleMarkCond staleSecs now2
      ({ t with status := some "stale", stale_at := some now }) =
      { t with status := some "stale", stale_at := some now } := by
    unfold staleMarkCond
    rw [if_neg]
    exact fun hc => hc.2.1 rfl
  show (if sweepRemoves retention 0 now2
      ({ t with status := some "stale", stale_at := some now }) = true then none
    else some (if 0 < staleSecs then
      staleMarkCond staleSecs now2
        ({ t with status := some "stale", stale_at := some now })
      else { t with status := some "stale", stale_at := some now })) = _
  rw [hrm2, if_neg (by simp), if_pos hs, hsm2]

theorem sweep_staleness_idempotent_witness :
    alookup "a"
      (sweep 3 0 5 100
        [("a", ({ task_id := "a", status := some "update",
                  updated_at := some 80 } : TaskState))]) =
      some ({ task_id := "a", status := some "stale",
              updated_at := some 80, stale_at := some 100 } : TaskState) ∧
    alookup "a"
      (sweep 3 0 5 200
        (sweep 3 0 5 100
          [("a", ({ task_id := "a", status := some "update",
                    updated_at := some 80 } : TaskState))])) =
      some ({ task_id := "a", status := some "stale",
              updated_at := some 80, stale_at := some 100 } : TaskState) :=
  sweep_staleness_idempotent 3 5 100 200
    [("a", ({ task_id := "a", status := some "update",
              updated_at := some 80 } : TaskState))] "a"
    ({ task_id := "a", status := some "update",
       updated_at := some 80 } : TaskState)
    (by decide) (by decide) (by decide) (by decide) (by decide) (by decide)
    (by decide)

-- ### Client delivery channel (`RemoteTqdmMixin`)

/-- State of the client delivery machinery: the unbounded
`queue.Queue` filled by `_emit` (front = oldest), the worker's local
`buffered` slot, the worker's `last_push` clock, and the ordered list of
payloads handed to `_post` (the transport layer). -/
structure WorkerState where
  queue : List ProgressEvent
  buffered : Option ProgressEvent
  lastPush : Int
  posts : List ProgressEvent
  deriving DecidableEq, Repr

/-- Worker start state: `last_push = 0.0`, `buffered = None`, empty
queue, nothing posted. -/
def initWorker : WorkerState :=
  { queue := [], buffered := none, lastPush := 0, posts := [] }

/-- `_emit`: `self._queue.put(payload)` — one queue entry per call. -/
def emitPut (s : WorkerState) (e : ProgressEvent) : WorkerState :=
  { s with queue := s.queue ++ [e] }

/-- One iteration of the `_worker` loop at wall time `now`: take the
front queue item into `buffered` if one is available (overwriting,
i.e. superseding, any unsent buffered event), then post the buffered
event iff `now - last_push >= push_every`. -/
def workerStep (pushEvery : Int) (s : WorkerState) (now : Int) : WorkerState :=
  let s1 :=
    match s.queue with
    | [] => s
    | e :: rest => { s with queue := rest, buffered := some e }
  match s1.buffered with
  | some b =>
      if pushEvery ≤ now - s1.lastPush then
        { s1 with posts := s1.posts ++ [b], lastPush := now, buffered := none }
      else s1
  | none => s1

/-- The shutdown tail of `_worker` after `_stop_event` is observed:
post the remaining buffered event if any, then drain the whole queue,
posting every entry in order. -/
def shutdownDrain (s : WorkerState) : WorkerState :=
  let s1 :=
    match s.buffered with
    | some b => { s with posts := s.posts ++ [b], buffered := none }
    | none => s
  { s1 with posts := s1.posts ++ s1.queue, queue := [] }

/-- Interleaved execution while the worker runs: a producer `_emit`
call or one worker loop iteration at a given wall time. -/
inductive ClientAction where
  | emit (e : ProgressEvent)
  | tick (now : Int)
  deriving DecidableEq, Repr

def isTick : ClientAction → Bool
  | ClientAction.tick _ => true
  | ClientAction.emit _ => false

def runActions (pushEvery : Int) (s : WorkerState) : List ClientAction → WorkerState
  | [] => s
  | ClientAction.emit e :: rest => runActions pushEvery (emitPut s e) rest
  | ClientAction.tick now :: rest =>
      runActions pushEvery (workerStep pushEvery s now) rest

/-- Number of events sitting in the delivery channel (queue entries plus
the worker's buffered slot) that have not reached the transport layer. -/
def pendingCount (s : WorkerState) : Nat :=
  s.queue.length + (if s.buffered.isSome then 1 else 0)

def optList : Option ProgressEvent → List ProgressEvent
  | some b => [b]
  | none => []

/-- All not-yet-posted events in age order behind the already-posted
ones: posted, then buffered, then queued. -/
def pendingTrail (s : WorkerState) : List ProgressEvent :=
  s.posts ++ optList s.buffered ++ s.queue

theorem getLast?_append_right {α : Type} (l1 l2 : List α) (h : l2 ≠ []) :
    (l1 ++ l2).getLast? = l2.getLast? := by
  induction l1 with
  | nil => rfl
  | cons a rest ih =>
    cases hq : rest ++ l2 with
    | nil =>
      rcases List.append_eq_nil.mp hq with ⟨h1, h2⟩
      exact absurd h2 h
    | cons b l =>
      rw [List.cons_append, hq, List.getLast?_cons_cons, ← hq, ih]

theorem runActions_append (pushEvery : Int) (s : WorkerState)
    (l1 l2 : List ClientAction) :
    runActions pushEvery s (l1 ++ l2) =
      runActions pushEvery (runActions pushEvery s l1) l2 := by
  induction l1 generalizing s with
  | nil => rfl
  | cons a rest ih =>
    cases a with
    | emit e => exact ih (emitPut s e)
    | tick now => exact ih (workerStep pushEvery s now)

theorem pendingTrail_emitPut (s : WorkerState) (e : ProgressEvent) :
    pendingTrail (emitPut s e) = pendingTrail s ++ [e] := by
  unfold pendingTrail emitPut
  simp [List.append_assoc]

/-- One worker iteration never changes the newest element of the trail:
taking a queue item into the buffer drops (supersedes) only a middle
element, and posting moves the buffered element across the posted
boundary. -/
theorem pendingTrail_workerStep (pushEvery : Int) (s : WorkerState) (now : Int) :
    (pendingTrail (workerStep pushEvery s now)).getLast? =
      (pendingTrail s).getLast? := by
  unfold workerStep
  cases hq : s.queue with
  | nil =>
    dsimp only
    cases hb : s.buffered with
    | none => rfl
    | some b =>
      dsimp only
      by_cases hc : pushEvery ≤ now - s.lastPush
      · rw [if_pos hc]
        unfold pendingTrail optList
        rw [hb, hq]
        simp
      · rw [if_neg hc]
  | cons e rest =>
    dsimp only
    by_cases hc : pushEvery ≤ now - s.lastPush
    · rw [if_pos hc]
      unfold pendingTrail
      rw [hq]
      show (s.posts ++ [e] ++ optList none ++ rest).getLast? =
        (s.posts ++ optList s.buffered ++ (e :: rest)).getLast?
      have hL : s.posts ++ [e] ++ optList none ++ rest = s.posts ++ (e :: rest) := by
        simp [optList]
      rw [hL, getLast?_append_right s.posts (e :: rest) (by simp),
        getLast?_append_right (s.posts ++ optList s.buffered) (e :: rest) (by simp)]
    · rw [if_neg hc]
      unfold pendingTrail
      rw [hq]
      show (s.posts ++ optList (some e) ++ rest).getLast? =
        (s.posts ++ optList s.buffered ++ (e :: rest)).getLast?
      have hL : s.posts ++ optList (some e) ++ rest = s.posts ++ (e :: rest) := by
        simp [optList]
      rw [hL, getLast?_append_right s.posts (e :: rest) (by simp),
        getLast?_append_right (s.posts ++ optList s.buffered) (e :: rest) (by simp)]

theorem pendingTrail_runTicks (pushEvery : Int) (s : WorkerState)
    (post : List ClientAction) (hticks : post.all isTick = true) :
    (pendingTrail (runActions pushEvery s post)).getLast? =
      (pendingTrail s).getLast? := by
  induction post generalizing s with
  | nil => rfl
  | cons a rest ih =>
    rw [List.all_cons, Bool.and_eq_true_iff] at hticks
    cases a with
    | emit e => exact absurd hticks.1 (by simp [isTick])
    | tick now =>
      show (pendingTrail (runActions pushEvery (workerStep pushEvery s now) rest)).getLast? = _
      rw [ih (workerStep pushEvery s now) hticks.2, pendingTrail_workerStep]

theorem shutdownDrain_posts (s : WorkerState) :
    (shutdownDrain s).posts = pendingTrail s := by
  unfold shutdownDrain pendingTrail optList
  cases s.buffered <;> simp

-- ### Claim C5

/-- **C5 (counterexample).** The delivery channel is NOT bounded at one
pending slot: `_emit` is `self._queue.put(payload)` on an unbounded
queue, so two emit calls with no intervening worker iteration leave two
pending events in the channel. -/
theorem emit_unbounded_queue_growth :
    pendingCount (runActions 10 initWorker
      [ClientAction.emit ({ task_id := "t", status := some "start" } : ProgressEvent),
       ClientAction.emit ({ task_id := "t", n := some 1 } : ProgressEvent)]) = 2 ∧
    pendingCount (runActions 10 initWorker
      [ClientAction.emit ({ task_id := "t", status := some "start" } : ProgressEvent),
       ClientAction.emit ({ task_id := "t", n := some 1 } : ProgressEvent)]) ≠ 1 := by
  decide

/-- **C5 (amended).** Each `_emit` call appends one entry to an
unbounded queue; the at-most-one-pending bound holds for the worker's
buffer: a worker iteration that takes a queued event while the push
interval has not elapsed replaces the previously buffered unsent event
with the newly taken one, posting nothing — the older event is dropped
unsent (superseded by the newest one taken). -/
theorem workerBuffer_supersedes (pushEvery : Int) (s : WorkerState) (now : Int)
    (e : ProgressEvent) (rest : List ProgressEvent)
    (hq : s.queue = e :: rest)
    (hthrottle : now - s.lastPush < pushEvery) :
    (workerStep pushEvery s now).buffered = some e ∧
    (workerStep pushEvery s now).posts = s.posts ∧
    (workerStep pushEvery s now).queue = rest := by
  unfold workerStep
  rw [hq]
  dsimp only
  rw [if_neg (by omega)]
  exact ⟨rfl, rfl, rfl⟩

theorem workerBuffer_supersedes_witness :
    (workerStep 10
      ({ queue := [({ task_id := "t", n := some 2 } : ProgressEvent)],
         buffered := some ({ task_id := "t", n := some 1 } : ProgressEvent),
         lastPush := 5, posts := [] } : WorkerState) 6).buffered =
      some ({ task_id := "t", n := some 2 } : ProgressEvent) ∧
    (workerStep 10
      ({ queue := [({ task_id := "t", n := some 2 } : ProgressEvent)],
         buffered := some ({ task_id := "t", n := some 1 } : ProgressEvent),
         lastPush := 5, posts := [] } : WorkerState) 6).posts = [] ∧
    (workerStep 10
      ({ queue := [({ task_id := "t", n := some 2 } : ProgressEvent)],
         buffered := some ({ task_id := "t", n := some 1 } : ProgressEvent),
         lastPush := 5, posts := [] } : WorkerState) 6).queue = [] :=
  workerBuffer_supersedes 10
    ({ queue := [({ task_id := "t", n := some 2 } : ProgressEvent)],
       buffered := some ({ task_id := "t", n := some 1 } : ProgressEvent),
       lastPush := 5, posts := [] } : WorkerState) 6
    ({ task_id := "t", n := some 2 } : ProgressEvent) [] (by decide) (by decide)

-- ### Claim C6

/-- **C6.** For every interleaving whose last emitted event is the close
event, the shutdown drain (post the buffered event if any, then post
every remaining queued event in order) makes the close event the last
payload handed to the transport layer, whatever the push interval
throttled before. -/
theorem worker_shutdown_sends_close (pushEvery : Int)
    (pre post : List ClientAction) (c : ProgressEvent)
    (hclose : c.status = some "close")
    (hticks : post.all isTick = true) :
    ((shutdownDrain (runActions pushEvery initWorker
        (pre ++ ClientAction.emit c :: post))).posts).getLast? = some c ∧
    (((shutdownDrain (runActions pushEvery initWorker
        (pre ++ ClientAction.emit c :: post))).posts).getLast?).map
      (fun ev => ev.status) = some (some "close") := by
  have hrun : runActions pushEvery initWorker (pre ++ ClientAction.emit c :: post) =
      runActions pushEvery
        (emitPut (runActions pushEvery initWorker pre) c) post := by
    rw [runActions_append]
    rfl
  have hlast : ((shutdownDrain (runActions pushEvery initWorker
      (pre ++ ClientAction.emit c :: post))).posts).getLast? = some c := by
    rw [hrun, shutdownDrain_posts, pendingTrail_runTicks _ _ _ hticks,
      pendingTrail_emitPut, getLast?_append_singleton]
  refine ⟨hlast, ?_⟩
  rw [hlast]
  show some c.status = some (some "close")
  rw [hclose]

theorem worker_shutdown_sends_close_witness :
    ((shutdownDrain (runActions 10 initWorker
        ([ClientAction.emit ({ task_id := "t", status := some "start" } : ProgressEvent),
          ClientAction.tick 0,
          ClientAction.emit ({ task_id := "t", n := some 1, status := some "update" } : ProgressEvent),
          ClientAction.emit ({ task_id := "t", n := some 2, status := some "update" } : ProgressEvent),
          ClientAction.emit ({ task_id := "t", n := some 3, status := some "update" } : ProgressEvent),
          ClientAction.emit ({ task_id := "t", n := some 4, status := some "update" } : ProgressEvent),
          ClientAction.emit ({ task_id := "t", n := some 5, status := some "update" } : ProgressEvent)] ++
         ClientAction.emit ({ task_id := "t", n := some 5, status := some "close" } : ProgressEvent) ::
          [ClientAction.tick 1]))).posts).getLast? =
      some ({ task_id := "t", n := some 5, status := some "close" } : ProgressEvent) ∧
    (((shutdownDrain (runActions 10 initWorker
        ([ClientAction.emit ({ task_id := "t", status := some "start" } : ProgressEvent),
          ClientAction.tick 0,
          ClientAction.emit ({ task_id := "t", n := some 1, status := some "update" } : ProgressEvent),
          ClientAction.emit ({ task_id := "t", n := some 2, status := some "update" } : ProgressEvent),
          ClientAction.emit ({ task_id := "t", n := some 3, status := some "update" } : ProgressEvent),
          ClientAction.emit ({ task_id := "t", n := some 4, status := some "update" } : ProgressEvent),
          ClientAction.emit ({ task_id := "t", n := some 5, status := some "update" } : ProgressEvent)] ++
         ClientAction.emit ({ task_id := "t", n := some 5, status := some "close" } : ProgressEvent) ::
          [ClientAction.tick 1]))).posts).getLast?).map
      (fun ev => ev.status) = some (some "close") :=
  worker_shutdown_sends_close 10
    [ClientAction.emit ({ task_id := "t", status := some "start" } : ProgressEvent),
     ClientAction.tick 0,
     ClientAction.emit ({ task_id := "t", n := some 1, status := some "update" } : ProgressEvent),
     ClientAction.emit ({ task_id := "t", n := some 2, status := some "update" } : ProgressEvent),
     ClientAction.emit ({ task_id := "t", n := some 3, status := some "update" } : ProgressEvent),
     ClientAction.emit ({ task_id := "t", n := some 4, status := some "update" } : ProgressEvent),
     ClientAction.emit ({ task_id := "t", n := some 5, status := some "update" } : ProgressEvent)]
    [ClientAction.tick 1]
    ({ task_id := "t", n := some 5, status := some "close" } : ProgressEvent)
    (by decide) (by decide)

-- ### Claim C2: `cleanup_loop` control flow

/-- Outcome of one sweep cycle: completes normally or raises an
unexpected exception. -/
inductive SweepOutcome where
  | ok
  | raises
  deriving DecidableEq, Repr

/-- Control flow of `cleanup_loop`: the `try` block wraps the whole
`while True` loop and the `except Exception` handler sits outside the
loop, so the first cycle that raises transfers control out of the loop
to the handler, which logs `"Cleanup loop crashed."` and returns — no
later cycle runs.  Given the scheduled outcomes of successive cycles,
this returns how many cycles are actually entered before the coroutine
ends. -/
def cleanupCyclesRun : List SweepOutcome → Nat
  | [] => 0
  | SweepOutcome.ok :: rest => 1 + cleanupCyclesRun rest
  | SweepOutcome.raises :: _ => 1

/-- **C2 (divergence).** One raising sweep cycle terminates
`cleanup_loop`: with a schedule of two ticks whose first cycle raises,
only one cycle runs — the loop does not continue on the next tick as
the spec requires, because the `except Exception` handler is outside
the `while`, not inside it. -/
theorem cleanupLoop_dies_on_failed_cycle :
    cleanupCyclesRun [SweepOutcome.raises, SweepOutcome.ok] = 1 ∧
    [SweepOutcome.raises, SweepOutcome.ok].length = 2 ∧
    cleanupCyclesRun [SweepOutcome.raises, SweepOutcome.ok] ≠
      [SweepOutcome.raises, SweepOutcome.ok].length := by
  decide
